import Mathlib

/-!
Verification of `hoomd_organics/base/system.py`.

This file gives a shallow embedding, in Lean 4, of the numeric and
state-manipulating parts of the `System` base class and its `Lattice`
subclass: charge rebalancing (`_scale_charges`), hydrogen removal
(`_remove_hydrogens`), reference-value bookkeeping
(`reference_values` setter, `_apply_forcefield`), molecule collection
(`System.__init__`), force-field collection (`System.__init__`),
density-driven box sizing (`set_target_box` / `_calculate_L`) and
lattice placement (`Lattice._build_system`).

Python floats are embedded as exact rationals (`ℚ`) where the code does
field arithmetic only, and as real numbers (`ℝ`) where fractional powers
occur (`_calculate_L`).  Python `None` is embedded as `Option.none`;
a Python exception escaping a method is embedded as an error value of
`Option`/`Except` or as an explicit raised-flag, as documented at each
definition.
-/

namespace HoomdOrganics

/-! ### Charge rebalancing: `System._scale_charges` and `System.net_charge`

A gmso site's `charge` attribute may be `None`; the code guards reads with
`site.charge if site.charge else 0`.  A site charge is embedded as
`Option ℚ` (`none` = Python `None`); for a numeric charge `q` the guard
returns `q` itself (also when `q = 0`, since the guard then yields the
literal `0`). -/

/-- `site.charge if site.charge else 0`. -/
def chargeOr0 : Option ℚ → ℚ
  | none => 0
  | some q => q

/-- `System.net_charge`: `sum(site.charge if site.charge else 0 for site in sites)`. -/
def net_charge (charges : List (Option ℚ)) : ℚ :=
  (charges.map chargeOr0).sum

/-- `abs_charge = sum(abs(charges))` computed in `_scale_charges`. -/
def abs_charge (charges : List (Option ℚ)) : ℚ :=
  (charges.map fun c => |chargeOr0 c|).sum

/-- One iteration of the loop in `_scale_charges`:
`site.charge -= abs(site.charge if site.charge else 0) * (net_charge / abs_charge)`.
When `site.charge` is `None`, the in-place subtraction `None -= 0.0` raises a
`TypeError`, embedded as `none`. -/
def scaleSite (r : ℚ) : Option ℚ → Option (Option ℚ)
  | some q => some (some (q - |chargeOr0 (some q)| * r))
  | none => none

/-- The `for site in self.gmso_system.sites` loop of `_scale_charges`,
updating each site in turn with the fixed ratio `r`; the first `TypeError`
(a `None` charge) aborts the whole call. -/
def scaleLoop (r : ℚ) : List (Option ℚ) → Option (List (Option ℚ))
  | [] => some []
  | c :: t =>
    match scaleSite r c with
    | none => none
    | some c2 =>
      match scaleLoop r t with
      | none => none
      | some t2 => some (c2 :: t2)

/-- `System._scale_charges`: captures the charge array, computes
`net_charge` and `abs_charge` from it, and when `abs_charge != 0` updates
every site in place with the fixed ratio `net_charge / abs_charge`.
Result `none` embeds a `TypeError` escaping the loop. -/
def scale_charges (charges : List (Option ℚ)) : Option (List (Option ℚ)) :=
  let net := net_charge charges
  let abs := abs_charge charges
  if abs = 0 then some charges
  else scaleLoop (net / abs) charges

lemma scaleLoop_net (cs : List (Option ℚ)) (r : ℚ)
    (hall : ∀ c ∈ cs, c ≠ none) :
    ∃ l, scaleLoop r cs = some l ∧
      net_charge l = net_charge cs - abs_charge cs * r := by
  induction cs with
  | nil =>
      exact ⟨[], rfl, by simp [net_charge, abs_charge]⟩
  | cons c t ih =>
      obtain ⟨l, hl, hnet⟩ := ih (fun x hx => hall x (List.mem_cons_of_mem _ hx))
      have hc : c ≠ none := hall c (List.mem_cons_self _ _)
      obtain ⟨q, rfl⟩ := Option.ne_none_iff_exists'.mp hc
      refine ⟨some (q - |chargeOr0 (some q)| * r) :: l, ?_, ?_⟩
      · simp [scaleLoop, scaleSite, hl]
      · simp only [net_charge, abs_charge, List.map_cons, List.sum_cons] at hnet ⊢
        simp only [chargeOr0] at hnet ⊢
        rw [hnet]
        ring

/-- C1: for every system whose sites have charges (no `None` charge) with a
nonzero sum of absolute values, `_scale_charges` succeeds (each charge `q`
becomes `q - |q| * (net_charge / total_absolute_charge)`) and afterwards
`net_charge` is exactly zero in exact rational arithmetic. -/
theorem scale_charges_zeroes_net_charge (charges : List (Option ℚ))
    (hall : ∀ c ∈ charges, c ≠ none)
    (habs : abs_charge charges ≠ 0) :
    ∃ l, scale_charges charges = some l ∧ net_charge l = 0 := by
  obtain ⟨l, hl, hnet⟩ :=
    scaleLoop_net charges (net_charge charges / abs_charge charges) hall
  refine ⟨l, ?_, ?_⟩
  · simp [scale_charges, habs, hl]
  · rw [hnet, mul_div_cancel₀ _ habs, sub_self]

/-- Witness for C1 at the concrete charge list `[1, 2]`. -/
theorem scale_charges_zeroes_net_charge_witness :
    (∀ c ∈ [some (1 : ℚ), some 2], c ≠ none) ∧
      abs_charge [some (1 : ℚ), some 2] ≠ 0 ∧
      ∃ l, scale_charges [some (1 : ℚ), some 2] = some l ∧ net_charge l = 0 := by
  have habs : abs_charge [some (1 : ℚ), some 2] ≠ 0 := by
    norm_num [abs_charge, chargeOr0]
  exact ⟨by decide, habs,
    scale_charges_zeroes_net_charge [some 1, some 2] (by decide) habs⟩

/-! ### Reference values: the `reference_values` setter

The setter iterates over `ref_keys = ["length", "mass", "energy"]` in that
order; for each key it first checks membership in the given dictionary
(raising `ValueError` if absent) and then immediately assigns the
corresponding `reference_*` property on `self`.  A raised exception leaves
the assignments already made in place, so the result is embedded as the
final state together with the optional error message.

`validate_ref_value` lives in `hoomd_organics.utils` (not part of the
sources under study); it is modelled from the spec as the identity on an
already-valid reference quantity, which is all this claim exercises. -/

/-- Modelled from the spec: `hoomd_organics.utils.validate_ref_value`
returns the validated reference quantity unchanged for a valid input. -/
def validate_ref_value (v : ℚ) : ℚ := v

/-- The `_reference_values` dictionary of a `System`
(`length` / `mass` / `energy` entries, each possibly unset). -/
structure RefState where
  length : Option ℚ
  mass : Option ℚ
  energy : Option ℚ
  deriving DecidableEq

/-- The dictionary passed to the `reference_values` setter: which of the
three expected keys are present, and their values. -/
structure RefDict where
  length : Option ℚ
  mass : Option ℚ
  energy : Option ℚ
  deriving DecidableEq

/-- The `reference_values` setter.  Returns the state of
`self._reference_values` after the call together with the `ValueError`
message when one was raised (Python leaves the already-performed
assignments on `self` in place when the exception propagates). -/
def setReferenceValues (s : RefState) (d : RefDict) : RefState × Option String :=
  match d.length with
  | none => (s, some "Missing reference for length.")
  | some v =>
    let s1 : RefState := { s with length := some (validate_ref_value v) }
    match d.mass with
    | none => (s1, some "Missing reference for mass.")
    | some v2 =>
      let s2 : RefState := { s1 with mass := some (validate_ref_value v2) }
      match d.energy with
      | none => (s2, some "Missing reference for energy.")
      | some v3 => ({ s2 with energy := some (validate_ref_value v3) }, none)

/-- C5 counterexample: with stored references `(1, 1, 1)` and a dictionary
carrying only `length = 2`, the setter raises `ValueError` (for the missing
`mass` key) but the stored reference length has already been changed from
`1` to `2`: the update is partial, refuting the claim that the stored
reference values are left unchanged on that error. -/
theorem setReferenceValues_partial_update_counterexample :
    setReferenceValues ⟨some 1, some 1, some 1⟩ ⟨some 2, none, none⟩ =
      (⟨some 2, some 1, some 1⟩, some "Missing reference for mass.") ∧
    (⟨some 2, some 1, some 1⟩ : RefState) ≠ ⟨some 1, some 1, some 1⟩ := by
  exact ⟨rfl, by decide⟩

/-- C5 (amended): a dictionary missing any of `length`, `mass`, `energy`
makes the setter raise `ValueError`; the keys are processed in the order
`length`, `mass`, `energy`, and the references for the keys preceding the
first missing one are already updated when the error is raised (a partial
update), so the stored references are unchanged only when `length` itself
is the first missing key. -/
theorem setReferenceValues_missing_key (s : RefState) (d : RefDict) :
    ((setReferenceValues s d).2.isSome ↔
      (d.length = none ∨ d.mass = none ∨ d.energy = none)) ∧
    (d.length = none → (setReferenceValues s d).1 = s) ∧
    (∀ v, d.length = some v → (setReferenceValues s d).1.length = some v) ∧
    (∀ v w, d.length = some v → d.mass = some w →
      (setReferenceValues s d).1.mass = some w) := by
  rcases d with ⟨dl, dm, de⟩
  cases dl <;> cases dm <;> cases de <;>
    simp [setReferenceValues, validate_ref_value]

/-- Witness for C5 (amended) at stored references `(1, 1, 1)` and the
dictionary `{length: 2}`. -/
theorem setReferenceValues_missing_key_witness :
    ((setReferenceValues ⟨some 1, some 1, some 1⟩ ⟨some 2, none, none⟩).2.isSome ↔
      ((⟨some 2, none, none⟩ : RefDict).length = none ∨
        (⟨some 2, none, none⟩ : RefDict).mass = none ∨
        (⟨some 2, none, none⟩ : RefDict).energy = none)) ∧
    ((⟨some 2, none, none⟩ : RefDict).length = none →
      (setReferenceValues ⟨some 1, some 1, some 1⟩ ⟨some 2, none, none⟩).1 =
        ⟨some 1, some 1, some 1⟩) ∧
    (∀ v, (⟨some 2, none, none⟩ : RefDict).length = some v →
      (setReferenceValues ⟨some 1, some 1, some 1⟩ ⟨some 2, none, none⟩).1.length =
        some v) ∧
    (∀ v w, (⟨some 2, none, none⟩ : RefDict).length = some v →
      (⟨some 2, none, none⟩ : RefDict).mass = some w →
      (setReferenceValues ⟨some 1, some 1, some 1⟩ ⟨some 2, none, none⟩).1.mass =
        some w) :=
  setReferenceValues_missing_key ⟨some 1, some 1, some 1⟩ ⟨some 2, none, none⟩

/-! ### Molecule collection: the first loop of `System.__init__`

The constructor iterates over `self._molecules` and dispatches on the type
of each item: a `Molecule` gets `assign_mol_name(str(n_mol_types))`, its
`molecules` are extended into `all_molecules`, its molecule-level force
field (if any) is recorded, and `n_mol_types` is incremented; a bare
`mb.Compound` is renamed to `str(n_mol_types)` and appended, *without*
incrementing the counter; a list is walked, each `mb.Compound` element
renamed to `str(n_mol_types)` and appended, any other element raising
`MoleculeLoadError`, and the counter is incremented after the list; an
item of any other type matches no branch and is silently skipped.

Python stores the name string `str(n)`; since `str` is injective on
naturals the name is embedded as the natural `n` itself.  An element of a
list item is embedded by whether it is an `mb.Compound`. -/

/-- An element of a list passed inside the `molecules` argument:
an `mb.Compound`, or an object of any other type. -/
inductive SubItem where
  | compound : SubItem
  | bad : SubItem
  deriving DecidableEq

/-- An item of the `molecules` argument of `System.__init__`.
`molecule nMols ffKind` is a `hoomd_organics` `Molecule` carrying `nMols`
sub-molecules and an optional molecule-level force field (`some true` =
HOOMD forces, `some false` = XML/GMSO force field); `compound` is a bare
`mb.Compound`; `listOf subs` is a Python list; `unsupported` is an object
of any other type. -/
inductive MolItem where
  | molecule (nMols : ℕ) (ffKind : Option Bool) : MolItem
  | compound : MolItem
  | listOf (subs : List SubItem) : MolItem
  | unsupported : MolItem
  deriving DecidableEq

/-- `True` exactly for the items that increment `n_mol_types`
(`Molecule` items and list items). -/
def countsAsMolType : MolItem → Bool
  | .molecule _ _ => true
  | .listOf _ => true
  | _ => false

/-- The state built by the collection loop: `n_mol_types`, the names of
the entries of `all_molecules` (in order), the keys of
`_gmso_forcefields_dict` filled from molecule-level force fields, the
number of molecule-level HOOMD forces collected, and — as an observer of
the name assignments — the name given to each counted (`Molecule` or
list) item, in order. -/
structure CollectState where
  nMolTypes : ℕ
  allMolecules : List ℕ
  gmsoKeys : List ℕ
  hoomdCount : ℕ
  typeNames : List ℕ
  deriving DecidableEq

/-- The initial state set up before the loop in `System.__init__`. -/
def initCollectState : CollectState :=
  { nMolTypes := 0, allMolecules := [], gmsoKeys := [], hoomdCount := 0,
    typeNames := [] }

/-- The `for sub_mol in mol_item` inner loop: each `mb.Compound` is renamed
to the current `str(n_mol_types)` and appended; any other element raises
`MoleculeLoadError`. -/
def collectSubs (name : ℕ) : List SubItem → Except String (List ℕ)
  | [] => .ok []
  | .compound :: t =>
    match collectSubs name t with
    | .ok names => .ok (name :: names)
    | .error e => .error e
  | .bad :: _ => .error "MoleculeLoadError: Unsupported compound type."

/-- One iteration of the collection loop of `System.__init__`. -/
def collectStep (s : CollectState) : MolItem → Except String CollectState
  | .molecule nMols ffKind =>
    .ok { s with
      nMolTypes := s.nMolTypes + 1
      allMolecules := s.allMolecules ++ List.replicate nMols s.nMolTypes
      gmsoKeys := if ffKind = some false then s.gmsoKeys ++ [s.nMolTypes]
                  else s.gmsoKeys
      hoomdCount := if ffKind = some true then s.hoomdCount + 1 else s.hoomdCount
      typeNames := s.typeNames ++ [s.nMolTypes] }
  | .compound =>
    -- NOTE: the `mb.Compound` branch does not increment `n_mol_types`.
    .ok { s with allMolecules := s.allMolecules ++ [s.nMolTypes] }
  | .listOf subs =>
    match collectSubs s.nMolTypes subs with
    | .error e => .error e
    | .ok names =>
      .ok { s with
        nMolTypes := s.nMolTypes + 1
        allMolecules := s.allMolecules ++ names
        typeNames := s.typeNames ++ [s.nMolTypes] }
  | .unsupported => .ok s

/-- The collection loop of `System.__init__`, starting from state `s`. -/
def collectFrom (s : CollectState) : List MolItem → Except String CollectState
  | [] => .ok s
  | it :: rest =>
    match collectStep s it with
    | .error e => .error e
    | .ok s2 => collectFrom s2 rest

/-- The whole molecule-collection phase of `System.__init__`. -/
def collectMolecules (items : List MolItem) : Except String CollectState :=
  collectFrom initCollectState items

/-- A `listOf` item containing a non-`mb.Compound` element. -/
def hasBadListItem (items : List MolItem) : Prop :=
  ∃ subs, MolItem.listOf subs ∈ items ∧ SubItem.bad ∈ subs

lemma collectSubs_ok_iff (name : ℕ) (subs : List SubItem) :
    (∃ names, collectSubs name subs = .ok names) ↔ SubItem.bad ∉ subs := by
  induction subs with
  | nil => simp [collectSubs]
  | cons c t ih =>
      cases c with
      | compound =>
          constructor
          · rintro ⟨names, h⟩
            simp only [collectSubs] at h
            rcases ht : collectSubs name t with e | ns
            · rw [ht] at h; cases h
            · have : SubItem.bad ∉ t := ih.mp ⟨ns, ht⟩
              simp [this]
          · intro h
            have hb : SubItem.bad ∉ t := by
              intro hm; exact h (List.mem_cons_of_mem _ hm)
            obtain ⟨ns, hns⟩ := ih.mpr hb
            exact ⟨name :: ns, by simp [collectSubs, hns]⟩
      | bad =>
          constructor
          · rintro ⟨names, h⟩
            simp [collectSubs] at h
          · intro h
            exact absurd (List.mem_cons_self _ _) h

lemma collectFrom_ok_iff (items : List MolItem) :
    ∀ s : CollectState,
      (∃ s2, collectFrom s items = .ok s2) ↔ ¬ hasBadListItem items := by
  induction items with
  | nil =>
      intro s
      simp [collectFrom, hasBadListItem]
  | cons it rest ih =>
      intro s
      have step_ok : ∀ s2, collectStep s it = .ok s2 →
          ∀ subs, it = MolItem.listOf subs → SubItem.bad ∉ subs := by
        intro s2 hstep subs hit
        subst hit
        simp only [collectStep] at hstep
        rcases hsub : collectSubs s.nMolTypes subs with e | ns
        · rw [hsub] at hstep; cases hstep
        · exact (collectSubs_ok_iff _ _).mp ⟨ns, hsub⟩
      constructor
      · rintro ⟨s2, h2⟩
        simp only [collectFrom] at h2
        rcases hstep : collectStep s it with e | sm
        · rw [hstep] at h2; cases h2
        · rw [hstep] at h2
          have hrest : ¬ hasBadListItem rest := (ih sm).mp ⟨s2, h2⟩
          rintro ⟨subs, hmem, hbad⟩
          rcases List.mem_cons.mp hmem with hhead | htail
          · exact absurd hbad (step_ok sm hstep subs hhead.symm)
          · exact hrest ⟨subs, htail, hbad⟩
      · intro hno
        have hit : ∀ subs, it = MolItem.listOf subs → SubItem.bad ∉ subs := by
          intro subs hsub hbad
          exact hno ⟨subs, by rw [← hsub]; exact List.mem_cons_self _ _, hbad⟩
        have hrest : ¬ hasBadListItem rest := by
          rintro ⟨subs, hmem, hbad⟩
          exact hno ⟨subs, List.mem_cons_of_mem _ hmem, hbad⟩
        have hstep : ∃ s2, collectStep s it = .ok s2 := by
          cases it with
          | molecule nMols ffKind => exact ⟨_, rfl⟩
          | compound => exact ⟨_, rfl⟩
          | listOf subs =>
              obtain ⟨ns, hns⟩ :=
                (collectSubs_ok_iff s.nMolTypes subs).mpr (hit subs rfl)
              rcases h2 : collectStep s (MolItem.listOf subs) with e | s2
              · exfalso
                simp [collectStep, hns] at h2
              · exact ⟨s2, rfl⟩
          | unsupported => exact ⟨_, rfl⟩
        obtain ⟨s2, h2⟩ := hstep
        obtain ⟨s3, h3⟩ := (ih s2).mpr hrest
        exact ⟨s3, by simp [collectFrom, h2, h3]⟩

/-- C6 counterexample: the `molecules` argument `[42]` (a single item of an
unsupported type: not a `Molecule`, not an `mb.Compound`, not a list)
is collected without any exception — the item is silently skipped and
nothing is added to the system — refuting the claim that construction
raises `MoleculeLoadError` for every unsupported item. -/
theorem collectMolecules_unsupported_skipped_counterexample :
    collectMolecules [MolItem.unsupported] = .ok initCollectState ∧
      (initCollectState.allMolecules = [] ∧ initCollectState.nMolTypes = 0) := by
  exact ⟨rfl, rfl, rfl⟩

/-- C6 (amended): the collection loop of `System.__init__` raises
`MoleculeLoadError` exactly when some *list* item of the `molecules`
argument contains an element that is not an `mb.Compound`; a top-level
item that is not a `Molecule`, not an `mb.Compound` and not a list matches
no branch of the loop and is silently skipped, raising nothing. -/
theorem collectMolecules_error_iff_bad_list_element (items : List MolItem) :
    ((∃ e, collectMolecules items = .error e) ↔ hasBadListItem items) ∧
    collectMolecules (MolItem.unsupported :: items) =
      collectMolecules items := by
  constructor
  · have h := collectFrom_ok_iff items initCollectState
    constructor
    · rintro ⟨e, he⟩
      by_contra hno
      obtain ⟨s2, h2⟩ := h.mpr hno
      rw [collectMolecules] at he
      rw [he] at h2
      cases h2
    · intro hbad
      rcases hok : collectMolecules items with e | s2
      · exact ⟨e, rfl⟩
      · exact absurd (h.mp ⟨s2, hok⟩) (not_not.mpr hbad)
  · rfl

/-- Witness for C6 (amended) at the concrete argument
`[[Compound, 42]]` (one list item whose second element is unsupported). -/
theorem collectMolecules_error_iff_bad_list_element_witness :
    ((∃ e, collectMolecules [MolItem.listOf [SubItem.compound, SubItem.bad]] =
        .error e) ↔
      hasBadListItem [MolItem.listOf [SubItem.compound, SubItem.bad]]) ∧
    collectMolecules
        (MolItem.unsupported :: [MolItem.listOf [SubItem.compound, SubItem.bad]]) =
      collectMolecules [MolItem.listOf [SubItem.compound, SubItem.bad]] :=
  collectMolecules_error_iff_bad_list_element
    [MolItem.listOf [SubItem.compound, SubItem.bad]]

lemma collectFrom_counts (items : List MolItem) :
    ∀ s s2 : CollectState, collectFrom s items = .ok s2 →
      s2.nMolTypes = s.nMolTypes + items.countP countsAsMolType ∧
      s2.typeNames =
        s.typeNames ++ List.range' s.nMolTypes (items.countP countsAsMolType) := by
  induction items with
  | nil =>
      intro s s2 h
      cases h
      simp
  | cons it rest ih =>
      intro s s2 h
      simp only [collectFrom] at h
      rcases hstep : collectStep s it with e | sm
      · rw [hstep] at h; cases h
      · rw [hstep] at h
        obtain ⟨hn, ht⟩ := ih sm s2 h
        cases it with
        | molecule nMols ffKind =>
            simp only [collectStep, Except.ok.injEq] at hstep
            subst hstep
            refine ⟨by simpa [countsAsMolType, Nat.add_comm, Nat.add_assoc,
              Nat.add_left_comm] using hn, ?_⟩
            rw [ht]
            simp [countsAsMolType, List.range'_succ]
        | compound =>
            simp only [collectStep, Except.ok.injEq] at hstep
            subst hstep
            exact ⟨by simpa [countsAsMolType] using hn,
              by simpa [countsAsMolType] using ht⟩
        | listOf subs =>
            simp only [collectStep] at hstep
            rcases hsub : collectSubs s.nMolTypes subs with e | ns
            · rw [hsub] at hstep; cases hstep
            · rw [hsub] at hstep
              cases hstep
              refine ⟨by simpa [countsAsMolType, Nat.add_comm, Nat.add_assoc,
                Nat.add_left_comm] using hn, ?_⟩
              rw [ht]
              simp [countsAsMolType, List.range'_succ]
        | unsupported =>
            simp only [collectStep, Except.ok.injEq] at hstep
            subst hstep
            exact ⟨by simpa [countsAsMolType] using hn,
              by simpa [countsAsMolType] using ht⟩

/-- C9 counterexample: the `molecules` argument `[compound1, compound2]`
(two bare `mb.Compound` items) is collected with `n_mol_types = 0`, not
`2`, and both items are renamed to `str(0)` — the same name — because the
`mb.Compound` branch of the loop never increments `n_mol_types`.  This
refutes both conjuncts of the claim. -/
theorem collectMolecules_compound_counter_not_incremented :
    collectMolecules [MolItem.compound, MolItem.compound] =
      .ok { nMolTypes := 0, allMolecules := [0, 0], gmsoKeys := [],
            hoomdCount := 0, typeNames := [] } ∧
    (0 : ℕ) ≠ [MolItem.compound, MolItem.compound].length ∧
    ¬ ([0, 0] : List ℕ).Nodup := by
  exact ⟨rfl, by decide, by decide⟩

/-- C9 (amended): when the collection loop of `System.__init__` finishes
without an exception, `n_mol_types` equals the number of `Molecule` items
plus the number of list items in the `molecules` argument (bare
`mb.Compound` items and items of unsupported types do *not* increment it),
and the `Molecule`/list items are assigned the distinct names
`str(0), …, str(n_mol_types - 1)` in order; a bare `mb.Compound` item is
instead named with the current counter value, which other items may share. -/
theorem collectMolecules_nMolTypes (items : List MolItem) (s : CollectState)
    (h : collectMolecules items = .ok s) :
    s.nMolTypes = items.countP countsAsMolType ∧
    s.typeNames = List.range s.nMolTypes ∧
    s.typeNames.Nodup := by
  obtain ⟨hn, ht⟩ := collectFrom_counts items initCollectState s h
  have hn0 : s.nMolTypes = items.countP countsAsMolType := by
    simpa [initCollectState] using hn
  have ht0 : s.typeNames = List.range s.nMolTypes := by
    rw [ht, hn0]
    simp [initCollectState, List.range_eq_range']
  exact ⟨hn0, ht0, by rw [ht0]; exact List.nodup_range _⟩

/-- Witness for C9 (amended) at the argument
`[Molecule (2 sub-molecules), [Compound]]`. -/
theorem collectMolecules_nMolTypes_witness :
    collectMolecules [MolItem.molecule 2 none, MolItem.listOf [SubItem.compound]] =
      .ok { nMolTypes := 2, allMolecules := [0, 0, 1], gmsoKeys := [],
            hoomdCount := 0, typeNames := [0, 1] } ∧
    ({ nMolTypes := 2, allMolecules := [0, 0, 1], gmsoKeys := [],
       hoomdCount := 0, typeNames := [0, 1] } : CollectState).nMolTypes =
      [MolItem.molecule 2 none,
        MolItem.listOf [SubItem.compound]].countP countsAsMolType ∧
    ({ nMolTypes := 2, allMolecules := [0, 0, 1], gmsoKeys := [],
       hoomdCount := 0, typeNames := [0, 1] } : CollectState).typeNames =
      List.range 2 ∧
    ({ nMolTypes := 2, allMolecules := [0, 0, 1], gmsoKeys := [],
       hoomdCount := 0, typeNames := [0, 1] } : CollectState).typeNames.Nodup := by
  have h := collectMolecules_nMolTypes
    [MolItem.molecule 2 none, MolItem.listOf [SubItem.compound]]
    { nMolTypes := 2, allMolecules := [0, 0, 1], gmsoKeys := [],
      hoomdCount := 0, typeNames := [0, 1] } rfl
  exact ⟨rfl, h.1, h.2.1, h.2.2⟩

/-! ### Force-field collection: the second loop of `System.__init__`

When a `force_field` argument was given (a nonempty list after
`check_return_iterable`), the constructor loops over
`i in range(self.n_mol_types)`; for each molecule type that did not bring
its own molecule-level force field it selects
`ff_index = i if i < len(self._force_field) else 0`, stores
`self._force_field[ff_index].gmso_ff` into `_gmso_forcefields_dict` when
that attribute is truthy, and raises `ForceFieldError` otherwise.

A force-field entry is embedded by its `gmso_ff` attribute (`none` =
falsy / not provided); `own i = true` embeds
`self._gmso_forcefields_dict.get(str(i))` being already set by a
molecule-level force field.  A GMSO force-field object is embedded as an
opaque natural. -/

/-- An entry of the `force_field` argument, keeping only its `gmso_ff`
attribute (`none` embeds a falsy / absent GMSO force field). -/
structure FFEntry where
  gmso_ff : Option ℕ
  deriving DecidableEq, Inhabited

/-- `ff_index = i if i < len(self._force_field) else 0`. -/
def ffIndex (ffs : List FFEntry) (i : ℕ) : ℕ :=
  if i < ffs.length then i else 0

/-- The body of the force-field loop, iterating over the remaining
molecule-type indices; `acc` is the list of
`(molecule type, gmso force field)` pairs added to
`_gmso_forcefields_dict` so far. -/
def collectFFGo (own : ℕ → Bool) (ffs : List FFEntry)
    (acc : List (ℕ × ℕ)) : List ℕ → Except String (List (ℕ × ℕ))
  | [] => .ok acc
  | i :: rest =>
    if own i then collectFFGo own ffs acc rest
    else
      match (ffs.getD (ffIndex ffs i) default).gmso_ff with
      | some g => collectFFGo own ffs (acc ++ [(i, g)]) rest
      | none => .error "ForceFieldError: GMSO Force field is not provided."

/-- The force-field collection phase of `System.__init__`: skipped when no
`force_field` argument was given, otherwise the loop over
`range(n_mol_types)`. -/
def collectForceFields (own : ℕ → Bool) (ffs : List FFEntry)
    (nMolTypes : ℕ) : Except String (List (ℕ × ℕ)) :=
  if ffs.isEmpty then .ok []
  else collectFFGo own ffs [] (List.range nMolTypes)

lemma collectFFGo_append (own : ℕ → Bool) (ffs : List FFEntry)
    (l1 : List ℕ) :
    ∀ (acc : List (ℕ × ℕ)) (l2 : List ℕ),
      collectFFGo own ffs acc (l1 ++ l2) =
        match collectFFGo own ffs acc l1 with
        | .ok acc2 => collectFFGo own ffs acc2 l2
        | .error e => .error e := by
  induction l1 with
  | nil => intro acc l2; rfl
  | cons i t ih =>
      intro acc l2
      by_cases hi : own i
      · simp only [List.cons_append, collectFFGo, hi, if_true]
        exact ih acc l2
      · simp only [List.cons_append, collectFFGo, hi, if_false]
        rcases (ffs.getD (ffIndex ffs i) default).gmso_ff with _ | g
        · rfl
        · exact ih (acc ++ [(i, g)]) l2

lemma collectFFGo_all_ok (own : ℕ → Bool) (ffs : List FFEntry)
    (l : List ℕ)
    (hok : ∀ j ∈ l, own j = false →
      (ffs.getD (ffIndex ffs j) default).gmso_ff ≠ none) :
    ∀ acc, ∃ acc2, collectFFGo own ffs acc l = .ok acc2 := by
  induction l with
  | nil => intro acc; exact ⟨acc, rfl⟩
  | cons i t ih =>
      intro acc
      have iht := ih fun j hj => hok j (List.mem_cons_of_mem _ hj)
      by_cases hi : own i
      · simpa [collectFFGo, hi] using iht acc
      · have hne : (ffs.getD (ffIndex ffs i) default).gmso_ff ≠ none :=
          hok i (List.mem_cons_self _ _) (by simpa using hi)
        obtain ⟨g, hg⟩ := Option.ne_none_iff_exists'.mp hne
        obtain ⟨acc2, h2⟩ := iht (acc ++ [(i, g)])
        refine ⟨acc2, ?_⟩
        rw [collectFFGo, if_neg (by simp [hi]), hg]
        exact h2

/-- C7: when a `force_field` argument is given (nonempty list of entries)
and some molecule type `i < n_mol_types` has no molecule-level force
field, the selected entry (`ffs[i]` when `i < len(ffs)`, else `ffs[0]`)
has a falsy `gmso_ff`, and every earlier molecule type either has its own
force field or a truthy selected `gmso_ff`, then `System.__init__` raises
`ForceFieldError`; moreover for every molecule type at or beyond the
length of the force-field list the entry at index `0` is the one used. -/
theorem collectForceFields_error (own : ℕ → Bool) (ffs : List FFEntry)
    (nMolTypes i : ℕ)
    (hne : ffs ≠ [])
    (hi : i < nMolTypes)
    (hown : own i = false)
    (hbad : (ffs.getD (ffIndex ffs i) default).gmso_ff = none)
    (hprev : ∀ j < i, own j = false →
      (ffs.getD (ffIndex ffs j) default).gmso_ff ≠ none) :
    (∃ e, collectForceFields own ffs nMolTypes = .error e) ∧
    (∀ k, ffs.length ≤ k → ffIndex ffs k = 0) := by
  refine ⟨?_, fun k hk => by simp [ffIndex, Nat.not_lt.mpr hk]⟩
  have hsplit : List.range nMolTypes =
      List.range i ++ i :: List.range' (i + 1) (nMolTypes - i - 1) := by
    rw [List.range_eq_range', List.range_eq_range']
    have h1 := List.range'_append_1 0 i (nMolTypes - i)
    rw [Nat.zero_add] at h1
    rw [show nMolTypes - i + i = nMolTypes from by omega] at h1
    rw [← h1]
    have h2 : ∀ m, m + 1 = nMolTypes - i →
        List.range' i (nMolTypes - i) = i :: List.range' (i + 1) m := by
      intro m hm
      rw [← hm, List.range'_succ]
    rw [h2 (nMolTypes - i - 1) (by omega)]
  rw [collectForceFields, if_neg (by simpa using hne), hsplit,
    collectFFGo_append]
  obtain ⟨acc2, hacc2⟩ := collectFFGo_all_ok own ffs (List.range i)
    (fun j hj => hprev j (List.mem_range.mp hj)) []
  rw [hacc2]
  refine ⟨"ForceFieldError: GMSO Force field is not provided.", ?_⟩
  show collectFFGo own ffs acc2 (i :: List.range' (i + 1) (nMolTypes - i - 1)) =
    Except.error "ForceFieldError: GMSO Force field is not provided."
  rw [collectFFGo, if_neg (by simp [hown]), hbad]

/-- Witness for C7 with one entry whose `gmso_ff` is falsy and one
molecule type without a molecule-level force field. -/
theorem collectForceFields_error_witness :
    (∃ e, collectForceFields (fun _ => false) [⟨none⟩] 1 = .error e) ∧
    (∀ k, ([⟨none⟩] : List FFEntry).length ≤ k →
      ffIndex [⟨none⟩] k = 0) := by
  exact collectForceFields_error (fun _ => false) [⟨none⟩] 1 0
    (by decide) (by decide) rfl rfl (by omega)

/-! ### Reference rescaling at the end of `System._apply_forcefield`

After typing the topology, `_apply_forcefield` collects the lists
`epsilons`, `sigmas` (from `site.atom_type.parameters`) and `masses`
(`site.mass`) over all sites, sets
`energy_scale = np.max(epsilons) if auto_scale else 1.0` (and likewise
for `length_scale` and `mass_scale`), and stores
`energy_scale * epsilons[0].unit_array`,
`length_scale * sigmas[0].unit_array` and — for the mass — either
`mass_scale * masses[0].unit_array.to("amu")` (`auto_scale=True`) or
`mass_scale * u.g / u.mol` (`auto_scale=False`).

Quantities are embedded by their magnitudes in the (shared) units of the
sites' parameters, with site masses expressed in amu, so
`q.unit_array` and `.to("amu")` contribute the factor `1`; the mass unit
tag (`amu` versus `g/mol`) is kept explicitly. -/

/-- A typed gmso site: the `epsilon` and `sigma` entries of
`site.atom_type.parameters` and the site mass (in amu). -/
structure TypedSite where
  epsilon : ℚ
  sigma : ℚ
  siteMass : ℚ
  deriving DecidableEq

/-- The unit attached to the stored reference mass. -/
inductive MassUnit where
  | amu : MassUnit
  | gPerMol : MassUnit
  deriving DecidableEq

/-- The three `_reference_values` entries written by `_apply_forcefield`. -/
structure ScaledRefs where
  energy : ℚ
  length : ℚ
  refMass : ℚ
  massUnit : MassUnit
  deriving DecidableEq

/-- `np.max` on a nonempty list (`np.max` on an empty list raises;
the `0` default is unreachable under the nonemptiness hypothesis of the
theorems below). -/
def npMax : List ℚ → ℚ
  | [] => 0
  | x :: xs => xs.foldl max x

/-- The reference-value rescaling at the end of `_apply_forcefield`. -/
def applyForcefieldRefs (autoScale : Bool) (sites : List TypedSite) :
    ScaledRefs :=
  let epsilons := sites.map TypedSite.epsilon
  let sigmas := sites.map TypedSite.sigma
  let masses := sites.map TypedSite.siteMass
  let energy_scale := if autoScale then npMax epsilons else 1
  let length_scale := if autoScale then npMax sigmas else 1
  let mass_scale := if autoScale then npMax masses else 1
  { energy := energy_scale
    length := length_scale
    refMass := mass_scale
    massUnit := if autoScale then MassUnit.amu else MassUnit.gPerMol }

lemma foldl_max_mem (xs : List ℚ) : ∀ x : ℚ, xs.foldl max x ∈ x :: xs := by
  induction xs with
  | nil => intro x; simp
  | cons y ys ih =>
      intro x
      have h := ih (max x y)
      have hfold : (y :: ys).foldl max x = ys.foldl max (max x y) := rfl
      rw [hfold]
      rcases List.mem_cons.mp h with h1 | h1
      · rcases max_choice x y with h2 | h2 <;> rw [h1, h2] <;> simp
      · simp [h1]

lemma foldl_max_le (xs : List ℚ) :
    ∀ x : ℚ, x ≤ xs.foldl max x ∧ ∀ y ∈ xs, y ≤ xs.foldl max x := by
  induction xs with
  | nil => intro x; simp
  | cons z zs ih =>
      intro x
      obtain ⟨h1, h2⟩ := ih (max x z)
      refine ⟨le_trans (le_max_left x z) h1, ?_⟩
      intro y hy
      rcases List.mem_cons.mp hy with hz | hz
      · rw [hz]
        exact le_trans (le_max_right x z) h1
      · exact h2 y hz

lemma npMax_is_max (l : List ℚ) (hl : l ≠ []) :
    npMax l ∈ l ∧ ∀ y ∈ l, y ≤ npMax l := by
  cases l with
  | nil => exact absurd rfl hl
  | cons x xs =>
      refine ⟨foldl_max_mem xs x, ?_⟩
      intro y hy
      obtain ⟨h1, h2⟩ := foldl_max_le xs x
      rcases List.mem_cons.mp hy with h | h
      · rw [h]; exact h1
      · exact h2 y h

/-- C8: after `_apply_forcefield`, with `auto_scale=True` the stored
reference energy, length and mass are the maximum epsilon, the maximum
sigma and the maximum site mass over all sites (mass carried in amu);
with `auto_scale=False` each stored scale factor is `1.0` in the
corresponding parameter unit, with the mass reference in g/mol. -/
theorem applyForcefieldRefs_spec (sites : List TypedSite)
    (hne : sites ≠ []) :
    ((applyForcefieldRefs true sites).energy ∈ sites.map TypedSite.epsilon ∧
      ∀ e ∈ sites.map TypedSite.epsilon,
        e ≤ (applyForcefieldRefs true sites).energy) ∧
    ((applyForcefieldRefs true sites).length ∈ sites.map TypedSite.sigma ∧
      ∀ s ∈ sites.map TypedSite.sigma,
        s ≤ (applyForcefieldRefs true sites).length) ∧
    ((applyForcefieldRefs true sites).refMass ∈ sites.map TypedSite.siteMass ∧
      ∀ m ∈ sites.map TypedSite.siteMass,
        m ≤ (applyForcefieldRefs true sites).refMass) ∧
    (applyForcefieldRefs true sites).massUnit = MassUnit.amu ∧
    applyForcefieldRefs false sites =
      { energy := 1, length := 1, refMass := 1,
        massUnit := MassUnit.gPerMol } := by
  have hmape : sites.map TypedSite.epsilon ≠ [] := by
    simpa using hne
  have hmaps : sites.map TypedSite.sigma ≠ [] := by
    simpa using hne
  have hmapm : sites.map TypedSite.siteMass ≠ [] := by
    simpa using hne
  refine ⟨?_, ?_, ?_, rfl, rfl⟩
  · simpa [applyForcefieldRefs] using npMax_is_max _ hmape
  · simpa [applyForcefieldRefs] using npMax_is_max _ hmaps
  · simpa [applyForcefieldRefs] using npMax_is_max _ hmapm

/-- Witness for C8 at the single site `(epsilon, sigma, mass) = (1, 2, 3)`. -/
theorem applyForcefieldRefs_spec_witness :
    ((applyForcefieldRefs true [⟨1, 2, 3⟩]).energy ∈
        [TypedSite.mk 1 2 3].map TypedSite.epsilon ∧
      ∀ e ∈ [TypedSite.mk 1 2 3].map TypedSite.epsilon,
        e ≤ (applyForcefieldRefs true [⟨1, 2, 3⟩]).energy) ∧
    ((applyForcefieldRefs true [⟨1, 2, 3⟩]).length ∈
        [TypedSite.mk 1 2 3].map TypedSite.sigma ∧
      ∀ s ∈ [TypedSite.mk 1 2 3].map TypedSite.sigma,
        s ≤ (applyForcefieldRefs true [⟨1, 2, 3⟩]).length) ∧
    ((applyForcefieldRefs true [⟨1, 2, 3⟩]).refMass ∈
        [TypedSite.mk 1 2 3].map TypedSite.siteMass ∧
      ∀ m ∈ [TypedSite.mk 1 2 3].map TypedSite.siteMass,
        m ≤ (applyForcefieldRefs true [⟨1, 2, 3⟩]).refMass) ∧
    (applyForcefieldRefs true [⟨1, 2, 3⟩]).massUnit = MassUnit.amu ∧
    applyForcefieldRefs false [⟨1, 2, 3⟩] =
      { energy := 1, length := 1, refMass := 1,
        massUnit := MassUnit.gPerMol } :=
  applyForcefieldRefs_spec [⟨1, 2, 3⟩] (by simp)

/-! ### Lattice placement: `Lattice._build_system`

The builder walks `i in range(n)`, `j in range(n)` (flattened below into
`n * n` iterations, which preserves both the iteration order and the
count); in each cell it fetches `all_molecules[next_idx]` and
`all_molecules[next_idx + 1]`, adds a two-molecule unit cell, and
advances `next_idx` by 2; an `IndexError` from either fetch is caught by
the `except IndexError: pass` and the iteration does nothing.  The
geometric operations (`translate`, bounding box, centering) do not change
which molecules are in the built compound, so the model records the index
pairs placed. -/

/-- One grid cell of `Lattice._build_system`: from `(next_idx, cells)`,
fetches molecules `next_idx` and `next_idx + 1` out of `m` collected
molecules, appending the pair on success; an out-of-range index raises
`IndexError`, which the `except ... pass` swallows, leaving the state
unchanged. -/
def latticeCellStep (m : ℕ) (st : ℕ × List (ℕ × ℕ)) : ℕ × List (ℕ × ℕ) :=
  if st.1 + 1 < m then (st.1 + 2, st.2 ++ [(st.1, st.1 + 1)]) else st

/-- The first `k` grid-cell iterations of `Lattice._build_system`. -/
def latticeCells (m : ℕ) : ℕ → ℕ × List (ℕ × ℕ)
  | 0 => (0, [])
  | k + 1 => latticeCellStep m (latticeCells m k)

/-- The number of molecules contained in the compound built by
`Lattice._build_system` for an `n`-by-`n` grid over `m` collected
molecules (two molecules per placed unit cell). -/
def latticeMoleculeCount (n m : ℕ) : ℕ :=
  2 * (latticeCells m (n * n)).2.length

lemma latticeCells_spec (m k : ℕ) :
    (latticeCells m k).1 = 2 * min k (m / 2) ∧
    (latticeCells m k).2.length = min k (m / 2) := by
  induction k with
  | zero => simp [latticeCells]
  | succ k ih =>
      obtain ⟨h1, h2⟩ := ih
      simp only [latticeCells, latticeCellStep]
      by_cases h : (latticeCells m k).1 + 1 < m
      · rw [if_pos h]
        rw [h1] at h ⊢
        simp only [List.length_append, h2, List.length_cons, List.length_nil]
        omega
      · rw [if_neg h]
        rw [h1] at h
        rw [h1, h2]
        omega

/-- C10: `Lattice._build_system` places molecules strictly in pairs over
the `n`-by-`n` grid: the built system contains
`2 * min(n*n, m/2)` molecules out of the `m` collected ones, the
`IndexError` raised at a missing pair is swallowed (the builder is total,
no exception propagates), and whenever `m` is odd or exceeds `2*n*n` the
leftover molecules are silently omitted, so the built system contains
fewer molecules than were passed in. -/
theorem latticeMoleculeCount_pairs (n m : ℕ) :
    latticeMoleculeCount n m = 2 * min (n * n) (m / 2) ∧
    (m % 2 = 1 ∨ 2 * (n * n) < m → latticeMoleculeCount n m < m) := by
  have h := (latticeCells_spec m (n * n)).2
  constructor
  · rw [latticeMoleculeCount, h]
  · intro hcond
    rw [latticeMoleculeCount, h]
    omega

/-- Witness for C10 at a 1-by-1 grid with 3 collected molecules: only one
pair (2 molecules) is placed and the third molecule is dropped. -/
theorem latticeMoleculeCount_pairs_witness :
    latticeMoleculeCount 1 3 = 2 * min (1 * 1) (3 / 2) ∧
    (3 % 2 = 1 ∨ 2 * (1 * 1) < 3 → latticeMoleculeCount 1 3 < 3) :=
  latticeMoleculeCount_pairs 1 3

/-! ### Density-driven box sizing: `set_target_box` and `_calculate_L`

Floats are embedded as real numbers; the float literals `1.66054e-24`,
`1e-7` and `1e7` are exact decimal constants.  A constraint argument is
`Option ℝ` (`none` = Python `None`).

`set_target_box` tests `not any([x_constraint, y_constraint,
z_constraint])` — Python truthiness, so a constraint of `0.0` counts as
absent.  In the constrained branch the code evaluates
`constraints[np.where(constraints is not None)]`: `constraints is not
None` is a single scalar `True` (the array object is not `None`), so
`np.where` yields the index array `[0]` and `fixed_L` is the one-element
array `[constraints[0]]` — regardless of which constraints were given.
`fixed_L *= 1e-7` then raises `TypeError` when `constraints[0]` is `None`
(embedded as result `none`).  Finally `constraints[np.where(constraints
is None)] = L` uses the scalar `False`, selecting no index at all, so the
assignment writes nothing and the unconstrained axes keep their `None`. -/

/-- Python truthiness of an optional float
(`None` and `0.0` are falsy). -/
noncomputable def truthyOpt : Option ℝ → Bool
  | none => false
  | some x => if x = 0 then false else true

/-- `System._calculate_L`: converts the system mass from amu to grams,
divides by the density to get the volume in cm^3, takes the cube root
(no constraints) or divides by the product of the fixed lengths (with a
square root when exactly one length is fixed), and converts the result
from cm to nm. -/
noncomputable def calculate_L (mass density : ℝ) (fixed_L : Option (List ℝ)) : ℝ :=
  let M := mass * 1.66054e-24
  let vol := M / density
  let L :=
    match fixed_L with
    | none => vol ^ ((1 : ℝ) / 3)
    | some fl =>
      let L0 := vol / fl.prod
      if fl.length = 1 then L0 ^ ((1 : ℝ) / 2) else L0
  L * 1e7

/-- `System.set_target_box`: result `none` embeds the `TypeError` raised
by `fixed_L *= 1e-7` when `constraints[0]` is `None`; otherwise the
resulting `target_box` entries (each possibly `None`). -/
noncomputable def set_target_box (mass density : ℝ)
    (x_constraint y_constraint z_constraint : Option ℝ) :
    Option (Option ℝ × Option ℝ × Option ℝ) :=
  if truthyOpt x_constraint || truthyOpt y_constraint ||
      truthyOpt z_constraint then
    match x_constraint with
    | none => none
    | some c0 =>
      -- `fixed_L` is always the singleton `[constraints[0] * 1e-7]`, and
      -- the write-back `constraints[np.where(constraints is None)] = L`
      -- modifies nothing.
      let _L := calculate_L mass density (some [c0 * 1e-7])
      some (x_constraint, y_constraint, z_constraint)
  else
    let L := calculate_L mass density none
    some (some L, some L, some L)

/-- C3: with no constraints and positive mass and density,
`set_target_box` produces a cubic target box whose edge, converted from
nm back to cm, has a cube (the box volume in cm^3) that multiplied by the
density recovers exactly the system mass converted to grams. -/
theorem set_target_box_cubic (mass density : ℝ)
    (hm : 0 < mass) (hd : 0 < density) :
    ∃ L, set_target_box mass density none none none =
        some (some L, some L, some L) ∧
      (L * 1e-7) ^ (3 : ℕ) * density = mass * 1.66054e-24 := by
  refine ⟨calculate_L mass density none, ?_, ?_⟩
  · rw [set_target_box, if_neg]
    simp [truthyOpt]
  · have hvol : (0 : ℝ) ≤ mass * 1.66054e-24 / density := by positivity
    have hL : calculate_L mass density none * 1e-7 =
        (mass * 1.66054e-24 / density) ^ ((1 : ℝ) / 3) := by
      rw [calculate_L]
      rw [mul_assoc]
      norm_num
    rw [hL]
    rw [← Real.rpow_natCast
      ((mass * 1.66054e-24 / density) ^ ((1 : ℝ) / 3)) 3]
    rw [← Real.rpow_mul hvol]
    norm_num
    rw [div_mul_cancel₀ _ (ne_of_gt hd)]

/-- Witness for C3 at mass 1 amu and density 1 g/cm^3. -/
theorem set_target_box_cubic_witness :
    ∃ L, set_target_box 1 1 none none none =
        some (some L, some L, some L) ∧
      (L * 1e-7) ^ (3 : ℕ) * 1 = 1 * 1.66054e-24 :=
  set_target_box_cubic 1 1 (by norm_num) (by norm_num)

/-- C4 (code bug): with an `x` constraint of 4 nm, `set_target_box` keeps
the unconstrained `y` and `z` entries of `target_box` equal to `None`
instead of the solved length (the elementwise `np.where(constraints is
None)` the docstring promises is actually a scalar test selecting no
index), and giving only a `y` constraint crashes with `TypeError`
(`fixed_L` is always `[constraints[0]]`, here `[None]`). -/
theorem set_target_box_constraint_bug :
    set_target_box 1 1 (some 4) none none =
      some (some 4, none, none) ∧
    set_target_box 1 1 none (some 4) none = none := by
  have h4 : (4 : ℝ) ≠ 0 := by norm_num
  constructor
  · rw [set_target_box, if_pos]
    · simp [truthyOpt, h4]
  · rw [set_target_box, if_pos]
    · simp [truthyOpt, h4]

/-! ### Hydrogen removal: `System._remove_hydrogens`

The method converts the gmso system to a ParmEd structure, finds the
hydrogens first by element (`a.element == 1`; in ParmEd `element` returns
`atomic_number`) and, if none are found, by mass (`a.mass == 1.008`);
for each hydrogen it sets `atomic_number = 1`, takes
`bonded_atom = h.bond_partners[0]` (an `IndexError` for an unbonded
hydrogen propagates — embedded as result `none`), and adds the
hydrogen's *current* mass and charge to that partner; finally it strips
every atom whose `atomic_number` is `1` and, when hydrogens were found,
rebuilds the gmso system from the stripped structure.

A ParmEd atom is embedded by its atomic number, mass, charge and the
indices of its `bond_partners` (in order). -/

/-- A ParmEd atom: atomic number (ParmEd's `element` property returns
`atomic_number`), mass, charge, and the indices of its bond partners. -/
structure PAtom where
  atomic_number : ℕ
  mass : ℚ
  charge : ℚ
  bond_partners : List ℕ
  deriving DecidableEq, Inhabited

/-- `[a for a in parmed_struc.atoms if a.element == 1]`, as indices. -/
def hydrogensByElement (atoms : List PAtom) : List ℕ :=
  (List.range atoms.length).filter fun j =>
    (atoms.getD j default).atomic_number == 1

/-- `[a for a in parmed_struc.atoms if a.mass == 1.008]`, as indices. -/
def hydrogensByMass (atoms : List PAtom) : List ℕ :=
  (List.range atoms.length).filter fun j =>
    decide ((atoms.getD j default).mass = (1.008 : ℚ))

/-- The hydrogen-detection phase of `_remove_hydrogens`: by element
first, then by mass (an empty result only triggers a warning). -/
def hydrogens (atoms : List PAtom) : List ℕ :=
  let byElement := hydrogensByElement atoms
  if byElement.isEmpty then hydrogensByMass atoms else byElement

/-- `h.atomic_number = 1`. -/
def setZ1 (a : PAtom) : PAtom :=
  { a with atomic_number := 1 }

/-- `bonded_atom.mass += h.mass; bonded_atom.charge += h.charge`. -/
def absorbInto (b a : PAtom) : PAtom :=
  { b with mass := b.mass + a.mass, charge := b.charge + a.charge }

/-- The body of the `for h in hydrogens` loop: sets `h.atomic_number = 1`,
then reads `h.bond_partners[0]` (`none` embeds the uncaught `IndexError`
when the hydrogen has no bond partners) and adds the hydrogen's current
mass and charge to that partner. -/
def absorbStep (atoms : List PAtom) (h : ℕ) : Option (List PAtom) :=
  let hA := atoms.getD h default
  let atoms1 := atoms.set h (setZ1 hA)
  match hA.bond_partners with
  | [] => none
  | p :: _ =>
    some (atoms1.set p (absorbInto (atoms1.getD p default) hA))

@[simp] lemma setZ1_atomic_number (a : PAtom) : (setZ1 a).atomic_number = 1 := rfl

@[simp] lemma setZ1_mass (a : PAtom) : (setZ1 a).mass = a.mass := rfl

@[simp] lemma setZ1_charge (a : PAtom) : (setZ1 a).charge = a.charge := rfl

@[simp] lemma setZ1_bond_partners (a : PAtom) :
    (setZ1 a).bond_partners = a.bond_partners := rfl

@[simp] lemma absorbInto_atomic_number (b a : PAtom) :
    (absorbInto b a).atomic_number = b.atomic_number := rfl

@[simp] lemma absorbInto_mass (b a : PAtom) :
    (absorbInto b a).mass = b.mass + a.mass := rfl

@[simp] lemma absorbInto_charge (b a : PAtom) :
    (absorbInto b a).charge = b.charge + a.charge := rfl

@[simp] lemma absorbInto_bond_partners (b a : PAtom) :
    (absorbInto b a).bond_partners = b.bond_partners := rfl

/-- The `for h in hydrogens` loop over the detected hydrogen indices. -/
def absorbLoop (atoms : List PAtom) : List ℕ → Option (List PAtom)
  | [] => some atoms
  | h :: t =>
    match absorbStep atoms h with
    | none => none
    | some a2 => absorbLoop a2 t

/-- `parmed_struc.strip([a.atomic_number == 1 for a in atoms])`. -/
def stripHydrogens (atoms : List PAtom) : List PAtom :=
  atoms.filter fun a => !(a.atomic_number == 1)

/-- `System._remove_hydrogens`: detection, absorption loop, strip; the
gmso system is rebuilt from the stripped structure only when hydrogens
were found (`if len(hydrogens) > 0`), otherwise it is left unchanged. -/
def remove_hydrogens (atoms : List PAtom) : Option (List PAtom) :=
  let hs := hydrogens atoms
  match absorbLoop atoms hs with
  | none => none
  | some a2 => if hs.isEmpty then some atoms else some (stripHydrogens a2)

/-- `sum(a.mass for a in atoms)`. -/
def total_mass (atoms : List PAtom) : ℚ :=
  (atoms.map PAtom.mass).sum

/-- `sum(a.charge for a in atoms)`. -/
def total_charge (atoms : List PAtom) : ℚ :=
  (atoms.map PAtom.charge).sum

lemma hydrogens_lt (atoms : List PAtom) :
    ∀ h ∈ hydrogens atoms, h < atoms.length := by
  intro h hh
  rw [hydrogens] at hh
  by_cases hcase : (hydrogensByElement atoms).isEmpty
  · rw [if_pos hcase] at hh
    exact List.mem_range.mp (List.mem_of_mem_filter hh)
  · rw [if_neg hcase] at hh
    exact List.mem_range.mp (List.mem_of_mem_filter hh)

lemma hydrogens_nodup (atoms : List PAtom) : (hydrogens atoms).Nodup := by
  rw [hydrogens]
  by_cases hcase : (hydrogensByElement atoms).isEmpty
  · rw [if_pos hcase]
    exact (List.nodup_range _).filter _
  · rw [if_neg hcase]
    exact (List.nodup_range _).filter _

lemma not_hydrogen_atomic_number (atoms : List PAtom) (j : ℕ)
    (hj : j < atoms.length) (hnot : j ∉ hydrogens atoms) :
    (atoms.getD j default).atomic_number ≠ 1 := by
  intro hZ
  have hjmem : j ∈ hydrogensByElement atoms := by
    rw [hydrogensByElement, List.mem_filter]
    exact ⟨List.mem_range.mpr hj, by simpa using hZ⟩
  have hne : ¬ (hydrogensByElement atoms).isEmpty := by
    intro hemp
    rw [List.isEmpty_iff] at hemp
    rw [hemp] at hjmem
    cases hjmem
  rw [hydrogens, if_neg hne] at hnot
  exact hnot hjmem

/-- A three-atom structure: two hydrogens bonded to each other and to a
carbon.  Atom 0: H, mass 1, charge 1, partners `[1, 2]`; atom 1: H,
mass 1, charge 1, partners `[0, 2]`; atom 2: C, mass 12, charge 0. -/
def hhcAtoms : List PAtom :=
  [⟨1, 1, 1, [1, 2]⟩, ⟨1, 1, 1, [0, 2]⟩, ⟨6, 12, 0, [0, 1]⟩]

/-- C2 counterexample: in `hhcAtoms` every hydrogen is bonded to at least
one non-hydrogen atom (the carbon, atom 2), yet `_remove_hydrogens`
succeeds with total mass 12 and total charge 0 where the original totals
were 14 and 2: each hydrogen's first bond partner is the *other
hydrogen*, so the absorbed mass and charge are destroyed by the strip,
refuting the claimed conservation. -/
theorem remove_hydrogens_mass_loss_counterexample :
    (∀ h ∈ hydrogens hhcAtoms,
      ∃ p ∈ (hhcAtoms.getD h default).bond_partners,
        (hhcAtoms.getD p default).atomic_number ≠ 1) ∧
    (remove_hydrogens hhcAtoms).map total_mass = some 12 ∧
    total_mass hhcAtoms = 14 ∧
    (remove_hydrogens hhcAtoms).map total_charge = some 0 ∧
    total_charge hhcAtoms = 2 := by
  have h1 : remove_hydrogens hhcAtoms = some [⟨6, 12, 0, [0, 1]⟩] := by
    simp [remove_hydrogens, hydrogens, hydrogensByElement, hhcAtoms,
      List.range_succ, absorbLoop, absorbStep, stripHydrogens, setZ1,
      absorbInto]
  refine ⟨by decide, ?_, ?_, ?_, ?_⟩
  · rw [h1]
    norm_num [total_mass]
  · norm_num [total_mass, hhcAtoms]
  · rw [h1]
    norm_num [total_charge]
  · norm_num [total_charge, hhcAtoms]

lemma getD_set_self (l : List PAtom) (i : ℕ) (a : PAtom)
    (h : i < l.length) : (l.set i a).getD i default = a := by
  rw [List.getD_eq_getElem _ _ (by simpa using h)]
  simp

lemma getD_set_ne (l : List PAtom) (i j : ℕ) (a : PAtom)
    (hne : j ≠ i) : (l.set i a).getD j default = l.getD j default := by
  by_cases hj : j < l.length
  · rw [List.getD_eq_getElem _ _ (by simpa using hj),
      List.getD_eq_getElem _ _ hj]
    exact List.getElem_set_ne (fun he => hne he.symm) _
  · rw [List.getD_eq_default _ _ (by simpa using Nat.le_of_not_lt hj),
      List.getD_eq_default _ _ (Nat.le_of_not_lt hj)]

lemma sum_map_set (l : List PAtom) (f : PAtom → ℚ) :
    ∀ (i : ℕ) (a : PAtom), i < l.length →
      ((l.set i a).map f).sum = (l.map f).sum - f (l.getD i default) + f a := by
  induction l with
  | nil =>
      intro i a h
      simp at h
  | cons x t ih =>
      intro i a h
      cases i with
      | zero =>
          simp [List.getD_cons_zero]
          ring
      | succ i =>
          have hi : i < t.length := by simpa using h
          simp only [List.set_cons_succ, List.map_cons, List.sum_cons,
            List.getD_cons_succ]
          rw [ih i a hi]
          ring

lemma sum_map_filter_add (l : List PAtom) (f : PAtom → ℚ) (p : PAtom → Bool) :
    ((l.filter p).map f).sum + ((l.filter fun a => !(p a)).map f).sum =
      (l.map f).sum := by
  induction l with
  | nil => simp
  | cons x t ih =>
      by_cases hx : p x <;>
        simp only [List.filter_cons, hx, Bool.not_true, Bool.not_false,
          if_true, if_false, List.map_cons, List.sum_cons] <;>
        simp <;> linarith [ih]

lemma sum_map_filter_ite (l : List PAtom) (f : PAtom → ℚ) (p : PAtom → Bool) :
    ((l.filter p).map f).sum = (l.map fun a => if p a then f a else 0).sum := by
  induction l with
  | nil => simp
  | cons x t ih =>
      by_cases hx : p x <;>
        simp [List.filter_cons, hx, ih]

lemma sum_map_eq_fin_sum (l : List PAtom) (f : PAtom → ℚ) :
    (l.map f).sum = ∑ i : Fin l.length, f (l.get i) := by
  conv_lhs => rw [← List.ofFn_get l]
  rw [List.map_ofFn, List.sum_ofFn]
  rfl

lemma absorbStep_spec (s : List PAtom) (h p : ℕ) (rest : List ℕ)
    (hh : h < s.length) (hp : p < s.length) (hne : p ≠ h)
    (hpart : (s.getD h default).bond_partners = p :: rest) :
    ∃ s2, absorbStep s h = some s2 ∧
      s2.length = s.length ∧
      s2.getD h default = setZ1 (s.getD h default) ∧
      s2.getD p default = absorbInto (s.getD p default) (s.getD h default) ∧
      (∀ j, j ≠ h → j ≠ p → s2.getD j default = s.getD j default) ∧
      total_mass s2 = total_mass s + (s.getD h default).mass ∧
      total_charge s2 = total_charge s + (s.getD h default).charge := by
  have hgp : (s.set h (setZ1 (s.getD h default))).getD p default =
      s.getD p default := getD_set_ne _ _ _ _ hne
  have hstep : absorbStep s h = some
      ((s.set h (setZ1 (s.getD h default))).set p
        (absorbInto ((s.set h (setZ1 (s.getD h default))).getD p default)
          (s.getD h default))) := by
    simp only [absorbStep]
    rw [hpart]
  have hp1 : p < (s.set h (setZ1 (s.getD h default))).length := by
    simpa using hp
  refine ⟨_, hstep, ?_, ?_, ?_, ?_, ?_, ?_⟩
  · simp
  · rw [getD_set_ne _ _ _ _ (fun he => hne he.symm),
      getD_set_self _ _ _ hh]
  · rw [getD_set_self _ _ _ hp1, hgp]
  · intro j hjh hjp
    rw [getD_set_ne _ _ _ _ hjp, getD_set_ne _ _ _ _ hjh]
  · rw [total_mass, total_mass,
      sum_map_set _ _ _ _ hp1,
      sum_map_set _ _ _ _ hh, hgp]
    simp only [absorbInto_mass, setZ1_mass]
    ring
  · rw [total_charge, total_charge,
      sum_map_set _ _ _ _ hp1,
      sum_map_set _ _ _ _ hh, hgp]
    simp only [absorbInto_charge, setZ1_charge]
    ring

lemma absorbLoop_spec (full : List ℕ) (hl : List ℕ) :
    ∀ (s : List PAtom),
      hl.Nodup →
      (∀ h ∈ hl, h ∈ full) →
      (∀ h ∈ hl, h < s.length) →
      (∀ h ∈ hl, ∃ p rest,
        (s.getD h default).bond_partners = p :: rest ∧
        p < s.length ∧ p ∉ full) →
      ∃ s2, absorbLoop s hl = some s2 ∧
        s2.length = s.length ∧
        total_mass s2 =
          total_mass s + (hl.map fun h => (s.getD h default).mass).sum ∧
        total_charge s2 =
          total_charge s + (hl.map fun h => (s.getD h default).charge).sum ∧
        (∀ h ∈ hl, s2.getD h default = setZ1 (s.getD h default)) ∧
        (∀ j ∈ full, j ∉ hl → s2.getD j default = s.getD j default) ∧
        (∀ j, j ∉ full →
          (s2.getD j default).atomic_number =
            (s.getD j default).atomic_number) := by
  induction hl with
  | nil =>
      intro s _ _ _ _
      exact ⟨s, rfl, rfl, by simp, by simp, by simp,
        fun j _ _ => rfl, fun j _ => rfl⟩
  | cons h t ih =>
      intro s hnd hsub hlt hpart
      obtain ⟨p, rest, hpr, hplt, hpnf⟩ := hpart h (List.mem_cons_self _ _)
      have hhfull : h ∈ full := hsub h (List.mem_cons_self _ _)
      have hph : p ≠ h := fun he => hpnf (he ▸ hhfull)
      obtain ⟨s1, hstep, hlen1, hgh, hgp, hother, hm1, hc1⟩ :=
        absorbStep_spec s h p rest (hlt h (List.mem_cons_self _ _)) hplt hph hpr
      have hnd' : t.Nodup := (List.nodup_cons.mp hnd).2
      have hnotin : h ∉ t := (List.nodup_cons.mp hnd).1
      have hsub' : ∀ x ∈ t, x ∈ full :=
        fun x hx => hsub x (List.mem_cons_of_mem _ hx)
      have hlt' : ∀ x ∈ t, x < s1.length := by
        intro x hx
        rw [hlen1]
        exact hlt x (List.mem_cons_of_mem _ hx)
      have hpres : ∀ x ∈ t, s1.getD x default = s.getD x default := by
        intro x hx
        have hxh : x ≠ h := fun he => hnotin (he ▸ hx)
        have hxp : x ≠ p := fun he => hpnf (he ▸ hsub' x hx)
        exact hother x hxh hxp
      have hpart' : ∀ x ∈ t, ∃ q qrest,
          (s1.getD x default).bond_partners = q :: qrest ∧
          q < s1.length ∧ q ∉ full := by
        intro x hx
        obtain ⟨q, qrest, hq1, hq2, hq3⟩ := hpart x (List.mem_cons_of_mem _ hx)
        refine ⟨q, qrest, ?_, ?_, hq3⟩
        · rw [hpres x hx]
          exact hq1
        · rw [hlen1]
          exact hq2
      obtain ⟨s2, hloop, hlen2, hm2, hc2, hz2, hfix2, hzpres2⟩ :=
        ih s1 hnd' hsub' hlt' hpart'
      have hmapm : (t.map fun x => (s1.getD x default).mass).sum =
          (t.map fun x => (s.getD x default).mass).sum := by
        apply congrArg
        exact List.map_congr_left fun x hx => by rw [hpres x hx]
      have hmapc : (t.map fun x => (s1.getD x default).charge).sum =
          (t.map fun x => (s.getD x default).charge).sum := by
        apply congrArg
        exact List.map_congr_left fun x hx => by rw [hpres x hx]
      refine ⟨s2, ?_, ?_, ?_, ?_, ?_, ?_, ?_⟩
      · simp only [absorbLoop]
        rw [hstep]
        exact hloop
      · rw [hlen2, hlen1]
      · rw [hm2, hm1, hmapm]
        simp only [List.map_cons, List.sum_cons]
        ring
      · rw [hc2, hc1, hmapc]
        simp only [List.map_cons, List.sum_cons]
        ring
      · intro x hx
        rcases List.mem_cons.mp hx with hxh | hxt
        · subst hxh
          rw [hfix2 x hhfull hnotin, hgh]
        · rw [hz2 x hxt, hpres x hxt]
      · intro j hjfull hjn
        have hjt : j ∉ t := fun hx => hjn (List.mem_cons_of_mem _ hx)
        have hjh : j ≠ h := fun he => hjn (he ▸ List.mem_cons_self _ _)
        have hjp : j ≠ p := fun he => hpnf (he ▸ hjfull)
        rw [hfix2 j hjfull hjt, hother j hjh hjp]
      · intro j hj
        have hjh : j ≠ h := fun he => hj (he ▸ hhfull)
        rw [hzpres2 j hj]
        by_cases hjp : j = p
        · subst hjp
          rw [hgp]
          simp
        · rw [hother j hjh hjp]

lemma strip_total (s2 atoms : List PAtom) (hs : List ℕ) (f : PAtom → ℚ)
    (hlen : s2.length = atoms.length)
    (hnd : hs.Nodup)
    (hlt : ∀ h ∈ hs, h < atoms.length)
    (hZ : ∀ j, j < atoms.length →
      ((s2.getD j default).atomic_number = 1 ↔ j ∈ hs))
    (hf : ∀ h ∈ hs, f (s2.getD h default) = f (atoms.getD h default)) :
    ((stripHydrogens s2).map f).sum =
      (s2.map f).sum - (hs.map fun h => f (atoms.getD h default)).sum := by
  have hsplit := sum_map_filter_add s2 f fun a => a.atomic_number == 1
  have h1 : ((s2.filter fun a => a.atomic_number == 1).map f).sum =
      (hs.map fun h => f (atoms.getD h default)).sum := by
    rw [sum_map_filter_ite, sum_map_eq_fin_sum]
    have hterm : ∀ i : Fin s2.length,
        (fun a => if a.atomic_number == 1 then f a else 0) (s2.get i) =
          (fun j => if j ∈ hs then f (atoms.getD j default) else 0)
            (i : ℕ) := by
      intro i
      have hilt : (i : ℕ) < atoms.length := by
        rw [← hlen]
        exact i.isLt
      have hgetD : s2.get i = s2.getD (i : ℕ) default := by
        rw [List.getD_eq_getElem s2 default i.isLt]
        simp
      by_cases hmem : (i : ℕ) ∈ hs
      · have hz1 : (s2.getD (i : ℕ) default).atomic_number = 1 :=
          (hZ (i : ℕ) hilt).mpr hmem
        simp only [hgetD, hz1, hmem, if_true, beq_self_eq_true]
        exact hf (i : ℕ) hmem
      · have hz1 : (s2.getD (i : ℕ) default).atomic_number ≠ 1 :=
          fun hc => hmem ((hZ (i : ℕ) hilt).mp hc)
        simp only [hgetD, hmem, if_false]
        rw [if_neg (by simpa using hz1)]
    rw [Finset.sum_congr rfl fun i _ => hterm i]
    rw [Fin.sum_univ_eq_sum_range
      (fun j => if j ∈ hs then f (atoms.getD j default) else 0) s2.length]
    rw [hlen]
    rw [← Finset.sum_filter]
    have hset : (Finset.range atoms.length).filter (fun j => j ∈ hs) =
        hs.toFinset := by
      ext j
      simp only [Finset.mem_filter, Finset.mem_range, List.mem_toFinset]
      exact ⟨fun hj => hj.2, fun hj => ⟨hlt j hj, hj⟩⟩
    rw [hset]
    exact List.sum_toFinset _ hnd
  have hstrip : ((stripHydrogens s2).map f).sum =
      ((s2.filter fun a => !(a.atomic_number == 1)).map f).sum := rfl
  rw [hstrip, ← h1]
  linarith [hsplit]

/-- C2 (amended): if every hydrogen atom detected by `_remove_hydrogens`
has at least one bond partner and its *first* bond partner
(`h.bond_partners[0]`) is not itself a detected hydrogen, then the method
removes every hydrogen from the topology, absorbing each removed
hydrogen's mass and charge into that first partner, and the total mass
and total charge of the system are unchanged.  (The claim's weaker
hypothesis — bonded to at least one non-hydrogen atom anywhere in the
partner list — does not suffice, see the counterexample.) -/
theorem remove_hydrogens_conserves (atoms : List PAtom)
    (hpart : ∀ h ∈ hydrogens atoms, ∃ p rest,
      (atoms.getD h default).bond_partners = p :: rest ∧
      p < atoms.length ∧ p ∉ hydrogens atoms) :
    ∃ l, remove_hydrogens atoms = some l ∧
      total_mass l = total_mass atoms ∧
      total_charge l = total_charge atoms ∧
      ∀ a ∈ l, a.atomic_number ≠ 1 := by
  by_cases hemp : (hydrogens atoms).isEmpty
  · have hhs : hydrogens atoms = [] := List.isEmpty_iff.mp hemp
    refine ⟨atoms, ?_, rfl, rfl, ?_⟩
    · simp [remove_hydrogens, hhs, absorbLoop]
    · intro a ha
      obtain ⟨i, hi, ha2⟩ := List.mem_iff_getElem.mp ha
      rw [← ha2, ← List.getD_eq_getElem atoms default hi]
      apply not_hydrogen_atomic_number atoms i hi
      rw [hhs]
      exact List.not_mem_nil i
  · obtain ⟨s2, hloop, hlen2, hm2, hc2, hz2, hfix2, hzpres2⟩ :=
      absorbLoop_spec (hydrogens atoms) (hydrogens atoms) atoms
        (hydrogens_nodup atoms) (fun h hh => hh) (hydrogens_lt atoms) hpart
    have hrem : remove_hydrogens atoms = some (stripHydrogens s2) := by
      simp only [remove_hydrogens]
      rw [hloop]
      simp [hemp]
    have hZiff : ∀ j, j < atoms.length →
        ((s2.getD j default).atomic_number = 1 ↔ j ∈ hydrogens atoms) := by
      intro j hj
      constructor
      · intro hZ
        by_contra hjn
        have hpres := hzpres2 j hjn
        rw [hZ] at hpres
        exact not_hydrogen_atomic_number atoms j hj hjn hpres.symm
      · intro hjh
        rw [hz2 j hjh]
        simp
    have hmass := strip_total s2 atoms (hydrogens atoms) PAtom.mass hlen2
      (hydrogens_nodup atoms) (hydrogens_lt atoms) hZiff
      (fun h hh => by rw [hz2 h hh]; rfl)
    have hcharge := strip_total s2 atoms (hydrogens atoms) PAtom.charge hlen2
      (hydrogens_nodup atoms) (hydrogens_lt atoms) hZiff
      (fun h hh => by rw [hz2 h hh]; rfl)
    refine ⟨stripHydrogens s2, hrem, ?_, ?_, ?_⟩
    · have hm2' := hm2
      rw [total_mass, total_mass] at hm2'
      simp only [total_mass]
      rw [hmass]
      linarith [hm2']
    · have hc2' := hc2
      rw [total_charge, total_charge] at hc2'
      simp only [total_charge]
      rw [hcharge]
      linarith [hc2']
    · intro a ha
      have hcond := (List.mem_filter.mp ha).2
      simpa using hcond

/-- Witness for C2 (amended): a single hydrogen (mass 1, charge 1) whose
first bond partner is a carbon (mass 12, charge -1). -/
theorem remove_hydrogens_conserves_witness :
    (∀ h ∈ hydrogens [⟨1, 1, 1, [1]⟩, ⟨6, 12, -1, [0]⟩],
      ∃ p rest,
        (([⟨1, 1, 1, [1]⟩, ⟨6, 12, -1, [0]⟩] : List PAtom).getD h
            default).bond_partners = p :: rest ∧
        p < ([⟨1, 1, 1, [1]⟩, ⟨6, 12, -1, [0]⟩] : List PAtom).length ∧
        p ∉ hydrogens [⟨1, 1, 1, [1]⟩, ⟨6, 12, -1, [0]⟩]) ∧
    ∃ l, remove_hydrogens [⟨1, 1, 1, [1]⟩, ⟨6, 12, -1, [0]⟩] = some l ∧
      total_mass l = total_mass [⟨1, 1, 1, [1]⟩, ⟨6, 12, -1, [0]⟩] ∧
      total_charge l = total_charge [⟨1, 1, 1, [1]⟩, ⟨6, 12, -1, [0]⟩] ∧
      ∀ a ∈ l, a.atomic_number ≠ 1 := by
  have hhyp : ∀ h ∈ hydrogens [⟨1, 1, 1, [1]⟩, ⟨6, 12, -1, [0]⟩],
      ∃ p rest,
        (([⟨1, 1, 1, [1]⟩, ⟨6, 12, -1, [0]⟩] : List PAtom).getD h
            default).bond_partners = p :: rest ∧
        p < ([⟨1, 1, 1, [1]⟩, ⟨6, 12, -1, [0]⟩] : List PAtom).length ∧
        p ∉ hydrogens [⟨1, 1, 1, [1]⟩, ⟨6, 12, -1, [0]⟩] := by
    intro h hh
    have hh0 : h = 0 := by
      have hl : hydrogens [⟨1, 1, 1, [1]⟩, ⟨6, 12, -1, [0]⟩] = [0] := by
        decide
      rw [hl] at hh
      simpa using hh
    subst hh0
    exact ⟨1, [], by decide, by decide, by decide⟩
  exact ⟨hhyp, remove_hydrogens_conserves _ hhyp⟩

end HoomdOrganics
